import Mathlib

/-!
Verification of the chatooli-2 shared substrate: the path-contained workspace
file store (`backend/tools/filesystem.py`), the code sandbox
(`backend/tools/sandbox.py`), the fenced code-block extractor
(`backend/utils.py`) and the Claude engine tool-use loop
(`backend/engines/claude_engine.py`).

The Python code is shallowly embedded: file contents are byte lists, the
workspace is a finite directory tree, Python exceptions are an explicit
`ToolError` sum carried in `Except`, and the external collaborators that the
code merely calls (the CPython `exec` runtime, the `re` regex engine and
`pathlib` glob matching) are oracle parameters.  Everything else is translated
directly from the source.
-/

/-! ### String primitives

Python string operations used by the source (`strip`, `startswith`, `split`,
`lower`, `in`, `replace(old, new, 1)`) are re-implemented over `List Char`
so that all definitions reduce in the kernel.  Python compares strings by
code points, which matches `Char.toNat` comparison. -/

/-- Code-point comparison of characters, as Python compares characters. -/
def charLt (a b : Char) : Bool := a.toNat < b.toNat

/-- Lexicographic (code-point) `≤` on character lists: Python string `<=`. -/
def charListLe : List Char → List Char → Bool
  | [], _ => true
  | _ :: _, [] => false
  | a :: as, b :: bs => if charLt a b then true else if a = b then charListLe as bs else false

/-- Python `s <= t` on strings (code-point lexicographic). -/
def strLe (s t : String) : Bool := charListLe s.toList t.toList

/-- Python `str.lower()` (ASCII-adequate for the texts involved). -/
def strLower (s : String) : String := String.mk (s.toList.map Char.toLower)

/-- The whitespace characters stripped by Python `str.strip()` (ASCII range). -/
def isPySpace (c : Char) : Bool :=
  c = ' ' || c = '\t' || c = '\n' || c = '\x0d' || c = '\x0b' || c = '\x0c'

/-- Python `str.strip()`. -/
def pyStrip (s : String) : String :=
  String.mk (((s.toList.dropWhile isPySpace).reverse.dropWhile isPySpace).reverse)

/-- Python `s.startswith(pat)`. -/
def strStartsWith (s pat : String) : Bool := pat.toList.isPrefixOf s.toList

/-- Split a character list on a separator character; mirrors Python
`str.split(sep)` for a one-character separator (`""` splits to `[""]`). -/
def splitOnChar (sep : Char) : List Char → List (List Char)
  | [] => [[]]
  | c :: cs =>
    let r := splitOnChar sep cs
    if c = sep then [] :: r
    else
      match r with
      | [] => [[c]]
      | h :: t => (c :: h) :: t

/-- Python `s.split(sep)` for a one-character separator. -/
def splitStr (sep : Char) (s : String) : List String :=
  (splitOnChar sep s.toList).map String.mk

/-- Python `str.splitlines()` restricted to `\n` terminators: a trailing
newline does not yield a trailing empty line, and `""` has no lines. -/
def pySplitlines (s : String) : List String :=
  if s = "" then []
  else
    let parts := splitStr '\n' s
    if parts.getLast? = some "" then parts.dropLast else parts

/-- Right-justify to width 4, as Python `f"{n:4d}"` for the line numbers. -/
def padLeft4 (s : String) : String :=
  String.mk (List.replicate (4 - s.length) ' ') ++ s

/-- Python `sep.join(parts)`. -/
def joinSep (sep : String) : List String → String
  | [] => ""
  | [l] => l
  | l :: rest => l ++ sep ++ joinSep sep rest

/-- First-occurrence replacement on character lists: Python
`text.replace(old, new, 1)` fused with the `old in text` membership test.
`none` means `old` does not occur in the list. -/
def subFirst (old new : List Char) : List Char → Option (List Char)
  | [] => if old.isEmpty then some new else none
  | c :: cs =>
    if old.isPrefixOf (c :: cs) then some (new ++ (c :: cs).drop old.length)
    else (subFirst old new cs).map (fun r => c :: r)

/-- Python `needle in hay` on character lists. -/
def containsSub (needle hay : List Char) : Bool :=
  (subFirst needle [] hay).isSome

/-- Python `t in s` on strings. -/
def strContains (s t : String) : Bool := containsSub t.toList s.toList

/-- The backtick character (written by code point to keep source clean). -/
def backtickChar : Char := Char.ofNat 96

/-! ### Python exceptions

The exception classes raised or caught by the source, as a sum type.  The
spec's error taxonomy maps onto them: `PathEscapeError` is the
`PermissionError` of `_resolve`, `SubstringNotFoundError` and
`InvalidPatternError` are the two `ValueError`s, and a missing required tool
argument is a `KeyError`. -/

inductive ToolError where
  | permissionError (msg : String)
  | fileNotFound (msg : String)
  | valueError (msg : String)
  | keyError (key : String)
  | isADirectoryError (msg : String)
  | notADirectoryError (msg : String)
  | unicodeDecodeError (msg : String)
deriving DecidableEq

/-- `str(e)` as interpolated by `f"Error: {e}"` in `_run_tool`
(`KeyError` renders its missing key in quotes, as CPython does). -/
def errText : ToolError → String
  | .permissionError m => m
  | .fileNotFound m => m
  | .valueError m => m
  | .keyError k => "'" ++ k ++ "'"
  | .isADirectoryError m => m
  | .notADirectoryError m => m
  | .unicodeDecodeError m => m

/-! ### Path resolution (`filesystem._resolve`)

POSIX paths are modelled as their absolute segment lists.  `Path.resolve()`
is the lexical normalisation below (no symlinks exist in the model), and
`str(p)` is `pathStr`.  `Path(root) / path` keeps `path` alone when it is
absolute, exactly as `pathlib` joins. -/

/-- Split a POSIX path string into its segments, dropping empty segments and
`"."` (which `Path` normalisation ignores). -/
def splitPath (s : String) : List String :=
  (splitStr '/' s).filter (fun t => !(t = "" || t = "."))

/-- Lexical `..` elimination of `Path.resolve()`: `..` pops the last segment
(and is a no-op at the filesystem root). -/
def normSegs (segs : List String) : List String :=
  segs.foldl (fun acc seg => if seg = ".." then acc.dropLast else acc ++ [seg]) []

/-- Python `os.path.isabs`-style test used by `pathlib` joining. -/
def isAbsPath (s : String) : Bool := strStartsWith s "/"

/-- `str()` of an absolute `Path` with the given segments. -/
def pathStr (segs : List String) : String := "/" ++ joinSep "/" segs

/-- `filesystem._resolve(path, root)`: resolve `path` against `root` and
apply the containment check `str(full).startswith(str(root))`, raising
`PermissionError` otherwise. -/
def _resolve (path root : String) : Except ToolError (List String) :=
  let rootR := normSegs (splitPath root)
  let full :=
    if isAbsPath path then normSegs (splitPath path)
    else normSegs (rootR ++ splitPath path)
  if strStartsWith (pathStr full) (pathStr rootR) then Except.ok full
  else Except.error (.permissionError ("Path escapes workspace: " ++ path))

/-- The resolved root segments (`Path(root).resolve()`), shared by the glob
and grep tools which do not go through `_resolve`. -/
def rootSegs (root : String) : List String := normSegs (splitPath root)

/-- The claim's containment notion: `p` lies strictly below `root`
(segment-wise, not string-prefix-wise). -/
def isStrictlyNested (p root : List String) : Bool :=
  root.isPrefixOf p && !(p == root)

/-! ### UTF-8 codec

`read_file` and `grep_files` decode with `errors="replace"` (total),
`edit_file` decodes strictly, `write_file` encodes.  The replacing decoder
emits one U+FFFD per rejected byte and resynchronises on the next byte,
which captures the claims' byte-totality; it recurses on an explicit fuel
equal to the byte count so that it reduces in the kernel. -/

/-- The U+FFFD replacement character. -/
def replChar : Char := Char.ofNat 0xFFFD

/-- UTF-8 encoding of one scalar value. -/
def utf8EncodeChar (c : Char) : List Nat :=
  let n := c.toNat
  if n < 0x80 then [n]
  else if n < 0x800 then [0xC0 + n / 0x40, 0x80 + n % 0x40]
  else if n < 0x10000 then
    [0xE0 + n / 0x1000, 0x80 + n / 0x40 % 0x40, 0x80 + n % 0x40]
  else
    [0xF0 + n / 0x40000, 0x80 + n / 0x1000 % 0x40, 0x80 + n / 0x40 % 0x40, 0x80 + n % 0x40]

/-- UTF-8 encoding of a string (Python `str.encode("utf-8")`). -/
def utf8Encode (s : String) : List Nat := (s.toList.map utf8EncodeChar).flatten

/-- A UTF-8 continuation byte. -/
def isContByte (b : Nat) : Bool := 0x80 ≤ b && b < 0xC0

/-- A scalar value encodable as a `Char` (excludes surrogates). -/
def isScalar (n : Nat) : Bool := (n < 0xD800 || 0xE000 ≤ n) && n < 0x110000

/-- Replacing UTF-8 decoder, fuelled by the remaining byte count. -/
def utf8DecodeGo : Nat → List Nat → List Char
  | 0, _ => []
  | _, [] => []
  | f + 1, b :: bs =>
    if b < 0x80 then Char.ofNat b :: utf8DecodeGo f bs
    else if b < 0xC2 then replChar :: utf8DecodeGo f bs
    else if b < 0xE0 then
      match bs with
      | b2 :: rest =>
        if isContByte b2 then Char.ofNat ((b - 0xC0) * 0x40 + (b2 - 0x80)) :: utf8DecodeGo f rest
        else replChar :: utf8DecodeGo f bs
      | [] => [replChar]
    else if b < 0xF0 then
      match bs with
      | b2 :: b3 :: rest =>
        let n := (b - 0xE0) * 0x1000 + (b2 - 0x80) * 0x40 + (b3 - 0x80)
        if isContByte b2 && isContByte b3 && 0x800 ≤ n && isScalar n then
          Char.ofNat n :: utf8DecodeGo f rest
        else replChar :: utf8DecodeGo f bs
      | _ => replChar :: utf8DecodeGo f bs
    else if b < 0xF5 then
      match bs with
      | b2 :: b3 :: b4 :: rest =>
        let n := (b - 0xF0) * 0x40000 + (b2 - 0x80) * 0x1000 + (b3 - 0x80) * 0x40 + (b4 - 0x80)
        if isContByte b2 && isContByte b3 && isContByte b4 && 0x10000 ≤ n && n < 0x110000 then
          Char.ofNat n :: utf8DecodeGo f rest
        else replChar :: utf8DecodeGo f bs
      | _ => replChar :: utf8DecodeGo f bs
    else replChar :: utf8DecodeGo f bs

/-- `bytes.decode("utf-8", errors="replace")`: total on arbitrary bytes. -/
def utf8DecodeReplace (bs : List Nat) : String :=
  String.mk (utf8DecodeGo bs.length bs)

/-- Strict UTF-8 decoder (fuelled like the replacing one). -/
def utf8DecodeStrictGo : Nat → List Nat → Option (List Char)
  | 0, [] => some []
  | 0, _ :: _ => none
  | _ + 1, [] => some []
  | f + 1, b :: bs =>
    if b < 0x80 then (utf8DecodeStrictGo f bs).map (Char.ofNat b :: ·)
    else if b < 0xC2 then none
    else if b < 0xE0 then
      match bs with
      | b2 :: rest =>
        if isContByte b2 then
          (utf8DecodeStrictGo f rest).map (Char.ofNat ((b - 0xC0) * 0x40 + (b2 - 0x80)) :: ·)
        else none
      | [] => none
    else if b < 0xF0 then
      match bs with
      | b2 :: b3 :: rest =>
        let n := (b - 0xE0) * 0x1000 + (b2 - 0x80) * 0x40 + (b3 - 0x80)
        if isContByte b2 && isContByte b3 && 0x800 ≤ n && isScalar n then
          (utf8DecodeStrictGo f rest).map (Char.ofNat n :: ·)
        else none
      | _ => none
    else if b < 0xF5 then
      match bs with
      | b2 :: b3 :: b4 :: rest =>
        let n := (b - 0xF0) * 0x40000 + (b2 - 0x80) * 0x1000 + (b3 - 0x80) * 0x40 + (b4 - 0x80)
        if isContByte b2 && isContByte b3 && isContByte b4 && 0x10000 ≤ n && n < 0x110000 then
          (utf8DecodeStrictGo f rest).map (Char.ofNat n :: ·)
        else none
      | _ => none
    else none

/-- `bytes.decode("utf-8")` (strict), raising on malformed input. -/
def utf8DecodeStrict (bs : List Nat) : Option String :=
  (utf8DecodeStrictGo bs.length bs).map String.mk

/-! ### The workspace filesystem

A finite directory tree.  File contents are raw bytes (so undecodable files
exist in the model, as on disk).  A directory carries a `denied` flag:
`iterdir()` on it raises `PermissionError`, which is the only permission
behaviour the source handles. -/

inductive FSNode where
  | file (content : List Nat)
  | dir (denied : Bool) (entries : List (String × FSNode))

/-- `p.is_file()` on a node. -/
def isFileNode : FSNode → Bool
  | .file _ => true
  | .dir _ _ => false

/-- Association-list lookup among a directory's entries. -/
def getEntry (es : List (String × FSNode)) (k : String) : Option FSNode :=
  match es.find? (fun e => e.1 = k) with
  | some e => some e.2
  | none => none

/-- Association-list update among a directory's entries (insert appends). -/
def setEntry (es : List (String × FSNode)) (k : String) (v : FSNode) :
    List (String × FSNode) :=
  match es with
  | [] => [(k, v)]
  | e :: rest => if e.1 = k then (k, v) :: rest else e :: setEntry rest k v

/-- Walk an absolute segment path down the tree. -/
def getNode : FSNode → List String → Option FSNode
  | n, [] => some n
  | .file _, _ :: _ => none
  | .dir _ es, s :: ss =>
    match getEntry es s with
    | some c => getNode c ss
    | none => none

/-- `p.is_file()` at an absolute segment path. -/
def isFileAt (fs : FSNode) (p : List String) : Bool :=
  match getNode fs p with
  | some (.file _) => true
  | _ => false

/-- `p.exists()` at an absolute segment path. -/
def existsAt (fs : FSNode) (p : List String) : Bool := (getNode fs p).isSome

/-- The bytes of the file at an absolute segment path, if it is a file. -/
def readBytes (fs : FSNode) (p : List String) : Option (List Nat) :=
  match getNode fs p with
  | some (.file c) => some c
  | _ => none

/-- `p.parent.mkdir(parents=True, exist_ok=True)` followed by
`p.write_bytes`: create missing parent directories, fail where POSIX does
(writing onto a directory, or through a file used as a directory). -/
def writeNode : FSNode → List String → List Nat → Except ToolError FSNode
  | .dir _ _, [], _ => .error (.isADirectoryError "Is a directory")
  | .file _, [], c => .ok (.file c)
  | .file _, _ :: _, _ => .error (.notADirectoryError "Not a directory")
  | .dir d es, [s], c =>
    match getEntry es s with
    | some (.dir _ _) => .error (.isADirectoryError "Is a directory")
    | _ => .ok (.dir d (setEntry es s (.file c)))
  | .dir d es, s :: ss, c =>
    let child := (getEntry es s).getD (.dir false [])
    match writeNode child ss c with
    | .error e => .error e
    | .ok child2 => .ok (.dir d (setEntry es s child2))

/-! ### Sibling ordering of `list_files`

The source sorts each level with
`sorted(d.iterdir(), key=lambda x: (x.is_file(), x.name.lower()))`.
`False < True`, so directories come first.  Python's `sorted` is stable;
`List.insertionSort` with the total preorder below is stable with the same
key, hence produces the same list. -/

/-- The first component of the sort key: `x.is_file()` as `0`/`1`. -/
def entryKindNat (e : String × FSNode) : Nat := if isFileNode e.2 then 1 else 0

/-- The sort key order of `list_files`: `(x.is_file(), x.name.lower())`
compared lexicographically. -/
def entryR (a b : String × FSNode) : Prop :=
  entryKindNat a < entryKindNat b ∨
    (entryKindNat a = entryKindNat b ∧ strLe (strLower a.1) (strLower b.1) = true)

instance : DecidableRel entryR := fun a b => by unfold entryR; infer_instance

/-- The per-level `sorted(...)` call of `list_files`. -/
def sortEntries (es : List (String × FSNode)) : List (String × FSNode) :=
  List.insertionSort entryR es

/-- `x.name + ("/" if x.is_dir() else "")`. -/
def entryDisplayName (e : String × FSNode) : String :=
  e.1 ++ (if isFileNode e.2 then "" else "/")

-- Tree height, used only to provide enough fuel for `walkGo` (the Python
-- `_walk` recursion is bounded by the same height).
mutual
def nodeDepth : FSNode → Nat
  | .file _ => 0
  | .dir _ es => 1 + entriesDepth es
def entriesDepth : List (String × FSNode) → Nat
  | [] => 0
  | (_, c) :: rest => max (nodeDepth c) (entriesDepth rest)
end

/-- `list_files._walk(d, prefix)`: renders one level's sorted entries with
box-drawing branch markers and recurses into subdirectories; a
`PermissionError` from `iterdir()` renders the literal
`"(permission denied)"` placeholder.  Fuelled by tree height. -/
def walkGo (recursive : Bool) : Nat → FSNode → String → List String
  | 0, _, _ => []
  | f + 1, node, px =>
    match node with
    | .file _ => []
    | .dir true _ => [px ++ "(permission denied)"]
    | .dir false es =>
      let entries := sortEntries es
      entries.enum.flatMap (fun ie =>
        let is_last := ie.1 == entries.length - 1
        let branch := if is_last then "└── " else "├── "
        (px ++ branch ++ entryDisplayName ie.2) ::
          (if recursive && !(isFileNode ie.2.2) then
            walkGo recursive f ie.2.2 (px ++ (if is_last then "    " else "│   "))
          else []))

/-! ### The filesystem tools (`backend/tools/filesystem.py`) -/

/-- `filesystem.read_file(path, root)`. -/
def read_file (path root : String) (fs : FSNode) : Except ToolError String := do
  let p ← _resolve path root
  if isFileAt fs p = false then
    Except.error (.fileNotFound ("File not found: " ++ path))
  else
    let text := utf8DecodeReplace ((readBytes fs p).getD [])
    let numbered := joinSep "\n"
      ((pySplitlines text).enum.map (fun il =>
        padLeft4 (toString (il.1 + 1)) ++ " | " ++ il.2))
    pure ("--- " ++ path ++ " ---\n" ++ numbered)

/-- `filesystem.write_file(path, content, root)`; returns the confirmation
and the updated tree (`len(content)` in CPython counts code points). -/
def write_file (path content root : String) (fs : FSNode) :
    Except ToolError (String × FSNode) := do
  let p ← _resolve path root
  let fs2 ← writeNode fs p (utf8Encode content)
  pure ("Wrote " ++ path ++ " (" ++ toString content.length ++ " bytes)", fs2)

/-- `filesystem.edit_file(path, old_string, new_string, root)`: `read_text`
here is strict UTF-8, `old_string not in text` raises `ValueError`, and the
replacement is `text.replace(old_string, new_string, 1)`. -/
def edit_file (path old_string new_string root : String) (fs : FSNode) :
    Except ToolError (String × FSNode) := do
  let p ← _resolve path root
  if isFileAt fs p = false then
    Except.error (.fileNotFound ("File not found: " ++ path))
  else
    match utf8DecodeStrict ((readBytes fs p).getD []) with
    | none => Except.error (.unicodeDecodeError "invalid utf-8")
    | some text =>
      match subFirst old_string.toList new_string.toList text.toList with
      | none => Except.error (.valueError ("old_string not found in " ++ path))
      | some t2 => do
        let fs2 ← writeNode fs p (utf8Encode (String.mk t2))
        pure ("Edited " ++ path ++ ": 1 replacement", fs2)

/-- `filesystem.list_files(path, root, recursive)`. -/
def list_files (path root : String) (recursive : Bool) (fs : FSNode) :
    Except ToolError String := do
  let p ← _resolve path root
  match getNode fs p with
  | none => Except.error (.fileNotFound ("Path not found: " ++ path))
  | some (.file _) => pure (path ++ " (file)")
  | some d =>
    if recursive then
      pure (joinSep "\n" ((path ++ "/") :: walkGo true (nodeDepth d + 1) d ""))
    else
      match d with
      | .file _ => pure (path ++ "/")
      | .dir true _ => pure (joinSep "\n" [path ++ "/", "(permission denied)"])
      | .dir false es =>
        pure (joinSep "\n"
          ((path ++ "/") :: (sortEntries es).map (fun e => "├── " ++ entryDisplayName e)))

-- All descendant paths of a node, relative to it, in tree order (the raw
-- `Path.glob` enumeration before the source's `sorted`).
mutual
def allPathsNode : FSNode → List (List String)
  | .file _ => []
  | .dir _ es => allPathsEntries es
def allPathsEntries : List (String × FSNode) → List (List String)
  | [] => []
  | (n, c) :: rest => ([n] :: (allPathsNode c).map (n :: ·)) ++ allPathsEntries rest
end

/-- Ordering of `pathlib` paths (component-wise lexicographic), as used by
the `sorted(...)` calls of `glob_files` and `grep_files`. -/
def pathLeB : List String → List String → Bool
  | [], _ => true
  | _ :: _, [] => false
  | a :: as, b :: bs =>
    if a = b then pathLeB as bs
    else charListLe a.toList b.toList

/-- `pathLeB` as a decidable relation for `insertionSort`. -/
def pathLe (a b : List String) : Prop := pathLeB a b = true

instance : DecidableRel pathLe := fun a b => by unfold pathLe; infer_instance

/-- `sorted(root_p.glob(pattern))` over the model: enumerate the subtree at
the resolved root, keep the paths the glob oracle accepts, sort. -/
def sortedGlobPaths (fnmatch : String → List String → Bool) (pattern root : String)
    (fs : FSNode) : List (List String) :=
  let all :=
    match getNode fs (rootSegs root) with
    | some n => allPathsNode n
    | none => []
  List.insertionSort pathLe (all.filter (fnmatch pattern))

/-- `filesystem.glob_files(pattern, root)` (glob matching is the
`fnmatch` oracle; only files are reported). -/
def glob_files (fnmatch : String → List String → Bool) (pattern root : String)
    (fs : FSNode) : String :=
  let rel := ((sortedGlobPaths fnmatch pattern root fs).filter
      (fun m => isFileAt fs (rootSegs root ++ m))).map
    (fun m => joinSep "/" m)
  if rel.isEmpty then "(no matches)" else joinSep "\n" rel

/-- The inner per-line loop of `grep_files`: append
`f"{rel}:{i}: {line.strip()}"` per regex hit and return with `stopped = true`
as soon as `max_matches` results have accumulated. -/
def grepLines (test : String → Bool) (max_matches : Nat) (rel : String) :
    List (Nat × String) → List String → List String × Bool
  | [], acc => (acc, false)
  | (i, line) :: rest, acc =>
    if test line then
      let acc2 := acc ++ [rel ++ ":" ++ toString i ++ ": " ++ pyStrip line]
      if max_matches ≤ acc2.length then (acc2, true)
      else grepLines test max_matches rel rest acc2
    else grepLines test max_matches rel rest acc

/-- The outer per-file loop of `grep_files`: skip non-files, decode with
replacement, scan the numbered lines, stop early when the inner loop did. -/
def grepGo (fs : FSNode) (rootR : List String) (test : String → Bool)
    (max_matches : Nat) : List (List String) → List String → List String × Bool
  | [], acc => (acc, false)
  | m :: rest, acc =>
    if isFileAt fs (rootR ++ m) = false then grepGo fs rootR test max_matches rest acc
    else
      let text := utf8DecodeReplace ((readBytes fs (rootR ++ m)).getD [])
      let numbered := (pySplitlines text).enum.map (fun il => (il.1 + 1, il.2))
      let r := grepLines test max_matches (joinSep "/" m) numbered acc
      if r.2 then r
      else grepGo fs rootR test max_matches rest r.1

/-- `filesystem.grep_files(pattern, root, glob_pattern, max_matches)`.
`re.compile` / `re.search` are the `reCompile` oracle: `none` models
`re.error`, a compiled pattern is a per-line test. -/
def grep_files (reCompile : String → Option (String → Bool))
    (fnmatch : String → List String → Bool) (pattern root glob_pattern : String)
    (max_matches : Nat) (fs : FSNode) : Except ToolError String :=
  match reCompile pattern with
  | none => .error (.valueError ("Invalid regex: " ++ pattern))
  | some test =>
    let files := sortedGlobPaths fnmatch glob_pattern root fs
    let results := (grepGo fs (rootSegs root) test max_matches files []).1
    .ok (if results.isEmpty then "(no matches)" else joinSep "\n" results)

/-! ### The code sandbox (`backend/tools/sandbox.py`)

The CPython `exec` of an arbitrary code string is external to the repo and
is modelled as an oracle: it either completes with captured stdout/stderr or
fails with the stdout captured before the failure plus
`traceback.format_exc()` text.  The embedding below is the source's handling
of those two outcomes; its totality is the "never thrown past this
boundary / host keeps running" contract. -/

inductive ExecOutcome where
  | success (out err : String)
  | failure (out tb : String)

/-- `sandbox.execute_python_code(code)` over the `exec` oracle. -/
def execute_python_code (pyExec : String → ExecOutcome) (code : String) : String :=
  match pyExec code with
  | .success out err =>
    let parts := (if out = "" then [] else ["Output:\n" ++ out]) ++
      (if err = "" then [] else ["Stderr:\n" ++ err])
    if parts.isEmpty then "Code executed successfully (no output)."
    else joinSep "\n" parts
  | .failure out tb =>
    (if out = "" then "" else "Output before error:\n" ++ out ++ "\n") ++
      ("Error:\n" ++ tb)

/-! ### The code-block extractor (`backend/utils.py`) -/

structure CodeBlock where
  language : String
  code : String
deriving DecidableEq

/-- The scanner state of `extract_code_blocks`: emitted blocks, the
inside-a-fence flag, the lines accumulated since the open fence, and the
language tag captured at fence open. -/
structure ScanState where
  blocks : List CodeBlock
  in_code : Bool
  current_code : List String
  lang : String
deriving DecidableEq

def initScanState : ScanState := ⟨[], false, [], "python"⟩

/-- One line of the `extract_code_blocks` loop. -/
def scanLine (st : ScanState) (line : String) : ScanState :=
  if strStartsWith (pyStrip line) "```" then
    if st.in_code then
      { blocks := st.blocks ++ [⟨st.lang, joinSep "\n" st.current_code⟩],
        in_code := false, current_code := [], lang := st.lang }
    else
      let lang_hint :=
        pyStrip (String.mk ((pyStrip line).toList.dropWhile (fun c => c = backtickChar)))
      { st with in_code := true, lang := if lang_hint = "" then "python" else lang_hint }
  else if st.in_code then { st with current_code := st.current_code ++ [line] }
  else st

/-- The scanner run over `text.split("\n")`. -/
def scanText (text : String) : ScanState :=
  (splitStr '\n' text).foldl scanLine initScanState

/-- `utils.extract_code_blocks(text)`: the final `if current_code:` emits an
unterminated block only when at least one line accumulated. -/
def extract_code_blocks (text : String) : List CodeBlock :=
  let st := scanText text
  if st.current_code.isEmpty then st.blocks
  else st.blocks ++ [⟨st.lang, joinSep "\n" st.current_code⟩]

/-! ### Tool dispatch and the tool-use loop (`backend/engines/claude_engine.py`) -/

/-- A tool call's argument dict: each key the schemas mention, present or
absent (`args["k"]` on an absent key raises `KeyError`,
`args.get("k", d)` defaults). -/
structure ToolArgs where
  path : Option String := none
  content : Option String := none
  old_string : Option String := none
  new_string : Option String := none
  recursive : Option Bool := none
  pattern : Option String := none
  glob_pattern : Option String := none
  code : Option String := none
deriving DecidableEq

/-- `args["k"]`: the value, or `KeyError('k')`. -/
def argGet (o : Option String) (k : String) : Except ToolError String :=
  match o with
  | some v => .ok v
  | none => .error (.keyError k)

/-- The external collaborators a tool run may consult. -/
structure Oracles where
  pyExec : String → ExecOutcome
  reCompile : String → Option (String → Bool)
  fnmatch : String → List String → Bool

/-- The `try:` body of `claude_engine._run_tool`: `some` a result (with the
updated tree and `files_changed`), `none` when no tool name matched, or a
raised `ToolError`.  `write_file`/`edit_file` append their raw `path`
argument to `files_changed` after the operation returns. -/
def tryRunTool (os : Oracles) (name : String) (args : ToolArgs) (root : String)
    (fs : FSNode) (files_changed : List String) :
    Except ToolError (Option (String × FSNode × List String)) :=
  if name = "read_file" then do
    let p ← argGet args.path "path"
    let r ← read_file p root fs
    pure (some (r, fs, files_changed))
  else if name = "write_file" then do
    let p ← argGet args.path "path"
    let c ← argGet args.content "content"
    let r ← write_file p c root fs
    pure (some (r.1, r.2, files_changed ++ [p]))
  else if name = "edit_file" then do
    let p ← argGet args.path "path"
    let old ← argGet args.old_string "old_string"
    let new ← argGet args.new_string "new_string"
    let r ← edit_file p old new root fs
    pure (some (r.1, r.2, files_changed ++ [p]))
  else if name = "list_files" then do
    let r ← list_files (args.path.getD ".") root (args.recursive.getD false) fs
    pure (some (r, fs, files_changed))
  else if name = "glob_files" then do
    let pat ← argGet args.pattern "pattern"
    pure (some (glob_files os.fnmatch pat root fs, fs, files_changed))
  else if name = "grep_files" then do
    let pat ← argGet args.pattern "pattern"
    let r ← grep_files os.reCompile os.fnmatch pat root (args.glob_pattern.getD "**/*") 100 fs
    pure (some (r, fs, files_changed))
  else if name = "execute_python_code" then do
    let c ← argGet args.code "code"
    pure (some (execute_python_code os.pyExec c, fs, files_changed))
  else pure none

/-- `claude_engine._run_tool`: a raised exception becomes the
`"Error: <message>"` text, an unmatched name the `"Unknown tool"` text;
state is untouched in both cases and the function is total. -/
def _run_tool (os : Oracles) (name : String) (args : ToolArgs) (root : String)
    (fs : FSNode) (files_changed : List String) : String × FSNode × List String :=
  match tryRunTool os name args root fs files_changed with
  | .error e => ("Error: " ++ errText e, fs, files_changed)
  | .ok none => ("Unknown tool", fs, files_changed)
  | .ok (some r) => r

/-- A content block of a model response (the Anthropic Messages shapes the
loop inspects). -/
inductive ContentBlock where
  | text (s : String)
  | toolUse (id : String) (name : String) (input : ToolArgs)
deriving DecidableEq

/-- The message contents the loop appends to its conversation. -/
inductive MsgContent where
  | str (s : String)
  | blocks (bs : List ContentBlock)
  | results (rs : List (String × String))
deriving DecidableEq

structure PyMessage where
  role : String
  content : MsgContent
deriving DecidableEq

/-- One model turn: `client.messages.create(...)` is external and modelled
as a function of the accumulated messages. -/
structure ModelResp where
  role : String
  content : List ContentBlock

/-- The running state of `ClaudeEngine.run`'s loop; `turns` counts completed
Compose→Dispatch cycles (model calls). -/
structure LoopState where
  messages : List PyMessage
  text : String
  fs : FSNode
  files_changed : List String
  turns : Nat

/-- The `for block in resp.content` body: record text blocks (the last one
wins as the running text), execute tool-use blocks in order through
`_run_tool`, and collect the assistant-content echo and the tool results. -/
def processBlocks (os : Oracles) (root : String) :
    List ContentBlock → String → FSNode → List String →
    String × List ContentBlock × List (String × String) × FSNode × List String
  | [], text, fs, files => (text, [], [], fs, files)
  | .text s :: rest, _, fs, files =>
    let r := processBlocks os root rest s fs files
    (r.1, .text s :: r.2.1, r.2.2)
  | .toolUse id nm input :: rest, text, fs, files =>
    let t := _run_tool os nm input root fs files
    let r := processBlocks os root rest text t.2.1 t.2.2
    (r.1, .toolUse id nm input :: r.2.1, (id, t.1) :: r.2.2.1, r.2.2.2)

/-- The `for _ in range(max_turns)` loop: one iteration per fuel unit; stop
early when a response carried no tool calls. -/
def runLoop (model : List PyMessage → ModelResp) (os : Oracles) (root : String) :
    Nat → LoopState → LoopState
  | 0, st => st
  | fuel + 1, st =>
    let resp := model st.messages
    let r := processBlocks os root resp.content st.text st.fs st.files_changed
    let msgs1 := st.messages ++ [⟨resp.role, .blocks r.2.1⟩]
    let st2 : LoopState := ⟨msgs1, r.1, r.2.2.2.1, r.2.2.2.2, st.turns + 1⟩
    if r.2.2.1.isEmpty then st2
    else runLoop model os root fuel
      { st2 with messages := msgs1 ++ [⟨"user", .results r.2.2.1⟩] }

/-- `max_turns = 20` in `ClaudeEngine.run`. -/
def max_turns : Nat := 20

structure EngineResponse where
  text : String
  code_blocks : List CodeBlock
  files_changed : List String
deriving DecidableEq

/-- The message list seeding the loop: history (role/content pairs) plus
the new user message. -/
def initMessages (history : List (String × String)) (message : String) : List PyMessage :=
  (history.map (fun h => ⟨h.1, .str h.2⟩)) ++ [⟨"user", .str message⟩]

/-- `ClaudeEngine.run` from the seeded state to the final loop state. -/
def claudeRun (model : List PyMessage → ModelResp) (os : Oracles) (root : String)
    (fs : FSNode) (history : List (String × String)) (message : String) : LoopState :=
  runLoop model os root max_turns ⟨initMessages history message, "", fs, [], 0⟩

/-- The `EngineResponse` built after the loop. -/
def claudeResponse (model : List PyMessage → ModelResp) (os : Oracles) (root : String)
    (fs : FSNode) (history : List (String × String)) (message : String) : EngineResponse :=
  let st := claudeRun model os root fs history message
  ⟨st.text, extract_code_blocks st.text, st.files_changed⟩

/-! ### The OpenAI engine wrappers (`backend/engines/openai_engine.py`)

`_make_tools` wraps the same filesystem operations; the SDK receives any
raised exception (first component `.error`), and the closed-over
`files_changed` list gains the path only after the operation returned. -/

/-- The `write_file` closure of `openai_engine._make_tools`. -/
def openaiWriteFile (path content root : String) (fs : FSNode)
    (files_changed : List String) : Except ToolError String × FSNode × List String :=
  match write_file path content root fs with
  | .error e => (.error e, fs, files_changed)
  | .ok r => (.ok r.1, r.2, files_changed ++ [path])

/-- The `edit_file` closure of `openai_engine._make_tools`. -/
def openaiEditFile (path old_string new_string root : String) (fs : FSNode)
    (files_changed : List String) : Except ToolError String × FSNode × List String :=
  match edit_file path old_string new_string root fs with
  | .error e => (.error e, fs, files_changed)
  | .ok r => (.ok r.1, r.2, files_changed ++ [path])

/-! ### Claim-side reference definitions

These follow the specification's words and are compared against the source
embeddings above. -/

/-- Is the content block a tool-use request? -/
def isToolUseB : ContentBlock → Bool
  | .toolUse _ _ _ => true
  | _ => false

/-- Is the content block a text block? -/
def isTextB : ContentBlock → Bool
  | .text _ => true
  | _ => false

/-- The text of a text block. -/
def textOfBlock : ContentBlock → Option String
  | .text s => some s
  | _ => none

/-- The claim's sibling ordering for `list_files`: every file precedes every
directory. -/
def filesThenDirsB : List (String × FSNode) → Bool
  | [] => true
  | e :: rest =>
    if isFileNode e.2 then filesThenDirsB rest
    else rest.all (fun x => !(isFileNode x.2))

/-- Reference (from the spec): the result lines of one grepped file, one
`"path:line_number: trimmed_line"` per regex hit, with no early stop. -/
def grepMatchLines (test : String → Bool) (rel : String)
    (numbered : List (Nat × String)) : List String :=
  numbered.filterMap (fun il =>
    if test il.2 then some (rel ++ ":" ++ toString il.1 ++ ": " ++ pyStrip il.2)
    else none)

/-- Reference (from the spec): every match over the scanned files in order,
with no `max_matches` cutoff. -/
def grepAllMatches (fs : FSNode) (rootR : List String) (test : String → Bool)
    (files : List (List String)) : List String :=
  files.flatMap (fun m =>
    if isFileAt fs (rootR ++ m) = false then []
    else
      grepMatchLines test (joinSep "/" m)
        ((pySplitlines (utf8DecodeReplace ((readBytes fs (rootR ++ m)).getD []))).enum.map
          (fun il => (il.1 + 1, il.2))))

/-- Join lines with newlines (used to state the extractor claims over an
explicit line list). -/
def joinNL : List String → String
  | [] => ""
  | [l] => l
  | l :: rest => l ++ "\n" ++ joinNL rest

/-! ### Concrete fixtures for witnesses and counterexamples -/

/-- A workspace tree rooted at `/ws`. -/
def wsTree (inner : List (String × FSNode)) : FSNode :=
  .dir false [("ws", .dir false inner)]

def fsAX : FSNode := wsTree [("f.txt", .file (utf8Encode "aXbXc"))]

def fsAY : FSNode := wsTree [("f.txt", .file (utf8Encode "aYbXc"))]

def fsHello : FSNode := wsTree [("f.txt", .file (utf8Encode "hello\nworld"))]

/-- A file whose bytes are not valid UTF-8 (`0xFF`). -/
def fsBin : FSNode := wsTree [("f.bin", .file [104, 105, 255])]

/-- `/a/b` is the workspace; `/a/bc/x` is a sibling subtree outside it whose
name shares the `"/a/b"` string as a proper string-prefix. -/
def fsEscape : FSNode :=
  .dir false [("a", .dir false
    [("b", .dir false []),
     ("bc", .dir false [("x", .file (utf8Encode "secret"))])])]

/-- A workspace holding one file and one permission-denied directory. -/
def fsDenied : FSNode := wsTree [("a.txt", .file []), ("locked", .dir true [])]

/-- A workspace holding one file and one readable directory. -/
def fsMix : FSNode := wsTree [("a.txt", .file []), ("b", .dir false [])]

/-- A regex oracle knowing only the literal pattern `"hello"`. -/
def reHello : String → Option (String → Bool) :=
  fun p => if p = "hello" then some (fun l => strContains l "hello") else none

/-- A regex oracle on which every pattern fails to compile. -/
def reNone : String → Option (String → Bool) := fun _ => none

/-- A glob oracle matching every path. -/
def globAll : String → List String → Bool := fun _ _ => true

/-- The CPython traceback text of `1/0`. -/
def tbZeroDiv : String :=
  "Traceback (most recent call last):\n  File \"<string>\", line 1, in <module>\nZeroDivisionError: division by zero"

/-- An exec oracle under which `"1/0"` fails as CPython does and everything
else succeeds silently. -/
def execZeroDiv : String → ExecOutcome :=
  fun c => if c = "1/0" then .failure "" tbZeroDiv else .success "" ""

/-- Inert oracles for the dispatch fixtures. -/
def osNull : Oracles := ⟨execZeroDiv, reHello, globAll⟩

/-- A model that requests a tool call on every turn and never emits text. -/
def modelAlwaysTool : List PyMessage → ModelResp :=
  fun _ => ⟨"assistant", [.toolUse "t1" "frobnicate" {}]⟩


/-! ### Helper lemmas: first-occurrence replacement and substring search -/

theorem subFirst_none_iff (old new l : List Char) :
    subFirst old new l = none ↔ ∀ i, old.isPrefixOf (l.drop i) = false := by
  induction l with
  | nil =>
    cases old with
    | nil =>
      simp only [subFirst, List.isEmpty_nil, if_pos]
      constructor
      · intro h; cases h
      · intro h; exact absurd (h 0) (by simp [List.isPrefixOf])
    | cons o os => simp [subFirst, List.isPrefixOf]
  | cons c cs ih =>
    by_cases h : old.isPrefixOf (c :: cs) = true
    · simp only [subFirst, h, if_pos]
      constructor
      · intro hfalse; cases hfalse
      · intro hall; exact absurd (hall 0) (by simp [h])
    · have hmap : subFirst old new (c :: cs) = (subFirst old new cs).map (c :: ·) := by
        simp [subFirst, h]
      rw [hmap, Option.map_eq_none', ih]
      constructor
      · intro hall i
        cases i with
        | zero => simpa using Bool.eq_false_iff.mpr h
        | succ j => simpa using hall j
      · intro hall i
        simpa using hall (i + 1)

theorem subFirst_some_spec (old new : List Char) :
    ∀ l r, subFirst old new l = some r →
      ∃ i, old.isPrefixOf (l.drop i) = true ∧
        (∀ j, j < i → old.isPrefixOf (l.drop j) = false) ∧
        r = l.take i ++ new ++ l.drop (i + old.length) := by
  intro l
  induction l with
  | nil =>
    intro r h
    cases old with
    | nil =>
      simp only [subFirst, List.isEmpty_nil, if_pos, Option.some.injEq] at h
      exact ⟨0, by simp [List.isPrefixOf], fun j hj => absurd hj (Nat.not_lt_zero j),
        by simp [← h]⟩
    | cons o os => simp [subFirst] at h
  | cons c cs ih =>
    intro r h
    by_cases hp : old.isPrefixOf (c :: cs) = true
    · simp only [subFirst, hp, if_pos, Option.some.injEq] at h
      exact ⟨0, by simpa using hp, fun j hj => absurd hj (Nat.not_lt_zero j),
        by simpa using h.symm⟩
    · have hmap : subFirst old new (c :: cs) = (subFirst old new cs).map (c :: ·) := by
        simp [subFirst, hp]
      rw [hmap, Option.map_eq_some'] at h
      obtain ⟨r2, hr2, hrr⟩ := h
      obtain ⟨i, h1, h2, h3⟩ := ih r2 hr2
      refine ⟨i + 1, by simpa using h1, ?_, ?_⟩
      · intro j hj
        cases j with
        | zero => simpa using Bool.eq_false_iff.mpr hp
        | succ j2 => simpa using h2 j2 (Nat.lt_of_succ_lt_succ hj)
      · have harith : i + 1 + old.length = (i + old.length) + 1 := by omega
        rw [← hrr, h3, List.take_succ_cons, harith, List.drop_succ_cons]
        simp

theorem exists_occurrence_iff (old l : List Char) :
    (∃ i, old.isPrefixOf (l.drop i) = true) ↔ ∃ p q, l = p ++ old ++ q := by
  constructor
  · rintro ⟨i, hi⟩
    obtain ⟨t, ht⟩ := List.isPrefixOf_iff_prefix.mp hi
    refine ⟨l.take i, t, ?_⟩
    conv_lhs => rw [← List.take_append_drop i l, ← ht]
    simp [List.append_assoc]
  · rintro ⟨p, q, rfl⟩
    refine ⟨p.length, List.isPrefixOf_iff_prefix.mpr ?_⟩
    rw [List.append_assoc, List.drop_left]
    exact List.prefix_append old q

theorem containsSub_iff (needle hay : List Char) :
    containsSub needle hay = true ↔ ∃ p q, hay = p ++ needle ++ q := by
  rw [← exists_occurrence_iff]
  simp [containsSub, Option.isSome_iff_ne_none, Ne, subFirst_none_iff]

theorem strContains_intro (s n : String) (p q : List Char)
    (h : s.toList = p ++ n.toList ++ q) : strContains s n = true :=
  (containsSub_iff _ _).mpr ⟨p, q, h⟩

theorem toList_append (s t : String) : (s ++ t).toList = s.toList ++ t.toList :=
  String.data_append s t

theorem strContains_append_left (s t n : String) (h : strContains t n = true) :
    strContains (s ++ t) n = true := by
  obtain ⟨p, q, hpq⟩ := (containsSub_iff _ _).mp h
  refine strContains_intro _ _ (s.toList ++ p) q ?_
  rw [toList_append, hpq]
  simp [List.append_assoc]

/-! ### Helper lemmas: tool dispatch -/

theorem run_tool_of_error (os : Oracles) (name : String) (args : ToolArgs)
    (root : String) (fs : FSNode) (files : List String) (e : ToolError)
    (h : tryRunTool os name args root fs files = .error e) :
    _run_tool os name args root fs files = ("Error: " ++ errText e, fs, files) := by
  unfold _run_tool
  rw [h]

theorem tryRunTool_none_of_unknown (os : Oracles) (name : String) (args : ToolArgs)
    (root : String) (fs : FSNode) (files : List String)
    (h : ¬ name ∈ ["read_file", "write_file", "edit_file", "list_files", "glob_files",
      "grep_files", "execute_python_code"]) :
    tryRunTool os name args root fs files = .ok none := by
  simp only [List.mem_cons, List.not_mem_nil, or_false, not_or] at h
  obtain ⟨h1, h2, h3, h4, h5, h6, h7⟩ := h
  simp [tryRunTool, h1, h2, h3, h4, h5, h6, h7, pure, Except.pure]

/-! ### Claim C1 -/

/-- C1 (code bug): the containment check of `_resolve` is the string-prefix
test `str(full).startswith(str(root))`.  With workspace root `/a/b`, the
relative path `../bc/x` resolves to `/a/bc/x` — outside the root — yet the
string `"/a/bc/x"` starts with `"/a/b"`, so `_resolve` returns it instead of
raising, and `read_file` then reads the out-of-root file.  This contradicts
the claim (and the function's own "forbid escape" docstring): resolution can
yield a path that is not nested under the root without failing. -/
theorem path_containment_code_bug :
    _resolve "../bc/x" "/a/b" = Except.ok ["a", "bc", "x"] ∧
    rootSegs "/a/b" = ["a", "b"] ∧
    isStrictlyNested ["a", "bc", "x"] ["a", "b"] = false ∧
    read_file "../bc/x" "/a/b" fsEscape = .ok "--- ../bc/x ---\n   1 | secret" :=
  ⟨rfl, rfl, rfl, rfl⟩

/-! ### Claim C3 -/

/-- C3: `execute_python_code` is total over every exec outcome (errors are
returned as data, never thrown, so the host keeps running).  On a failing
execution it returns the stdout captured before the failure (under its
label, when non-empty) followed by the full traceback text; executing
`"1/0"` yields text containing an error indicator and the division-by-zero
phrase; on success it returns the captured stdout, plus stderr when
non-empty, or the literal no-output sentinel when both are empty. -/
theorem sandbox_errors_as_text :
    ∀ (pyExec : String → ExecOutcome) (code : String),
      (∀ out tb, pyExec code = .failure out tb →
        execute_python_code pyExec code =
          (if out = "" then "" else "Output before error:\n" ++ out ++ "\n") ++
            ("Error:\n" ++ tb)) ∧
      (∀ out err, pyExec code = .success out err → out = "" → err = "" →
        execute_python_code pyExec code = "Code executed successfully (no output).") ∧
      (∀ out err, pyExec code = .success out err → out ≠ "" →
        execute_python_code pyExec code =
          ("Output:\n" ++ out) ++ (if err = "" then "" else "\n" ++ ("Stderr:\n" ++ err))) ∧
      (∀ out err, pyExec code = .success out err → out = "" → err ≠ "" →
        execute_python_code pyExec code = "Stderr:\n" ++ err) ∧
      (∀ tb, pyExec "1/0" = .failure "" tb →
        strContains tb "division by zero" = true →
        strContains (execute_python_code pyExec "1/0") "division by zero" = true ∧
        strContains (execute_python_code pyExec "1/0") "Error" = true) := by
  intro pyExec code
  refine ⟨?_, ?_, ?_, ?_, ?_⟩
  · intro out tb h
    simp [execute_python_code, h]
  · intro out err h ho he
    subst ho he
    simp [execute_python_code, h]
  · intro out err h ho
    by_cases he : err = ""
    · subst he
      simp [execute_python_code, h, ho, joinSep]
    · simp [execute_python_code, h, ho, he, joinSep, String.append_assoc]
  · intro out err h ho he
    subst ho
    simp [execute_python_code, h, he, joinSep]
  · intro tb h hc
    have hres : execute_python_code pyExec "1/0" = "Error:\n" ++ tb := by
      simp [execute_python_code, h]
    constructor
    · rw [hres]
      exact strContains_append_left _ _ _ hc
    · rw [hres]
      refine strContains_intro _ _ [] (":\n".toList ++ tb.toList) ?_
      rw [toList_append]
      simp only [List.nil_append, ← List.append_assoc]
      congr 1

set_option maxRecDepth 4000 in
/-- Witness for C3 at the concrete CPython outcome of `"1/0"`. -/
theorem sandbox_errors_as_text_witness :
    execute_python_code execZeroDiv "1/0" = "Error:\n" ++ tbZeroDiv ∧
    strContains (execute_python_code execZeroDiv "1/0") "division by zero" = true ∧
    strContains (execute_python_code execZeroDiv "1/0") "Error" = true := by
  have h := sandbox_errors_as_text execZeroDiv "1/0"
  have h1 := h.1 "" tbZeroDiv rfl
  have h2 := h.2.2.2.2 tbZeroDiv rfl (by decide)
  exact ⟨by simpa using h1, h2.1, h2.2⟩

/-! ### Claim C4 -/

/-- C4: dispatch turns failures into text and never propagates them — a name
outside the fixed seven-tool set yields the `"Unknown tool"` result, and a
recognized tool that raises yields `"Error: <message>"`; `_run_tool` is a
total function, so no exception crosses this boundary. -/
theorem tool_dispatch_errors_as_text :
    ∀ (os : Oracles) (name : String) (args : ToolArgs) (root : String) (fs : FSNode)
      (files : List String),
      (¬ name ∈ ["read_file", "write_file", "edit_file", "list_files", "glob_files",
          "grep_files", "execute_python_code"] →
        _run_tool os name args root fs files = ("Unknown tool", fs, files)) ∧
      (∀ e, tryRunTool os name args root fs files = .error e →
        _run_tool os name args root fs files = ("Error: " ++ errText e, fs, files)) := by
  intro os name args root fs files
  constructor
  · intro h
    unfold _run_tool
    rw [tryRunTool_none_of_unknown os name args root fs files h]
  · intro e h
    exact run_tool_of_error os name args root fs files e h

/-- Witness for C4: an unknown tool name, and a recognized tool raising
(`read_file` with its required `path` argument missing → `KeyError`). -/
theorem tool_dispatch_errors_as_text_witness :
    _run_tool osNull "make_coffee" {} "/ws" fsHello [] = ("Unknown tool", fsHello, []) ∧
    _run_tool osNull "read_file" {} "/ws" fsHello [] = ("Error: 'path'", fsHello, []) :=
  ⟨(tool_dispatch_errors_as_text osNull "make_coffee" {} "/ws" fsHello []).1 (by decide),
   (tool_dispatch_errors_as_text osNull "read_file" {} "/ws" fsHello []).2 (.keyError "path") rfl⟩

/-! ### Claim C9 -/

/-- C9: `files_changed` gains a path only after the underlying write/edit
returned successfully — in both the Claude dispatch (`_run_tool`) and the
OpenAI tool closures, a failing call leaves the list untouched, so an
invocation whose write/edit calls all fail returns it unchanged. -/
theorem files_changed_only_on_success :
    ∀ (os : Oracles) (args : ToolArgs) (root : String) (fs : FSNode) (files : List String),
      (∀ e, tryRunTool os "write_file" args root fs files = .error e →
        (_run_tool os "write_file" args root fs files).2.2 = files) ∧
      (∀ e, tryRunTool os "edit_file" args root fs files = .error e →
        (_run_tool os "edit_file" args root fs files).2.2 = files) ∧
      (∀ p c r, args.path = some p → args.content = some c →
        write_file p c root fs = .ok r →
        _run_tool os "write_file" args root fs files = (r.1, r.2, files ++ [p])) ∧
      (∀ p old new r, args.path = some p → args.old_string = some old →
        args.new_string = some new →
        edit_file p old new root fs = .ok r →
        _run_tool os "edit_file" args root fs files = (r.1, r.2, files ++ [p])) ∧
      (∀ path content e, (openaiWriteFile path content root fs files).1 = .error e →
        (openaiWriteFile path content root fs files).2.2 = files) ∧
      (∀ path old new e, (openaiEditFile path old new root fs files).1 = .error e →
        (openaiEditFile path old new root fs files).2.2 = files) := by
  intro os args root fs files
  refine ⟨?_, ?_, ?_, ?_, ?_, ?_⟩
  · intro e h
    rw [run_tool_of_error os "write_file" args root fs files e h]
  · intro e h
    rw [run_tool_of_error os "edit_file" args root fs files e h]
  · intro p c r hp hc hw
    simp [_run_tool, tryRunTool, argGet, hp, hc, hw, bind, Except.bind, pure, Except.pure]
  · intro p old new r hp ho hn he
    simp [_run_tool, tryRunTool, argGet, hp, ho, hn, he, bind, Except.bind, pure, Except.pure]
  · intro path content e h
    cases hw : write_file path content root fs with
    | error e2 => simp [openaiWriteFile, hw]
    | ok r => simp [openaiWriteFile, hw] at h
  · intro path old new e h
    cases hw : edit_file path old new root fs with
    | error e2 => simp [openaiEditFile, hw]
    | ok r => simp [openaiEditFile, hw] at h

/-- Witness for C9: a path-escaping write and an edit of a missing file
leave `files_changed` empty; a successful write appends its path. -/
theorem files_changed_only_on_success_witness :
    (_run_tool osNull "write_file" { path := some "/etc/x", content := some "hi" }
      "/ws" fsHello []).2.2 = [] ∧
    (_run_tool osNull "edit_file"
      { path := some "missing.txt", old_string := some "a", new_string := some "b" }
      "/ws" fsHello []).2.2 = [] ∧
    _run_tool osNull "write_file" { path := some "new.txt", content := some "hi" }
      "/ws" fsHello [] =
      ("Wrote new.txt (2 bytes)",
        wsTree [("f.txt", .file (utf8Encode "hello\nworld")),
          ("new.txt", .file (utf8Encode "hi"))], ["new.txt"]) ∧
    (openaiWriteFile "/etc/x" "hi" "/ws" fsHello []).2.2 = [] := by
  have h := files_changed_only_on_success osNull
  refine ⟨?_, ?_, ?_, ?_⟩
  · exact (h { path := some "/etc/x", content := some "hi" } "/ws" fsHello []).1
      (.permissionError "Path escapes workspace: /etc/x") rfl
  · exact (h { path := some "missing.txt", old_string := some "a", new_string := some "b" }
      "/ws" fsHello []).2.1 (.fileNotFound "File not found: missing.txt") rfl
  · exact (h { path := some "new.txt", content := some "hi" } "/ws" fsHello []).2.2.1
      "new.txt" "hi" _ rfl rfl rfl
  · exact (h {} "/ws" fsHello []).2.2.2.2.1 "/etc/x" "hi"
      (.permissionError "Path escapes workspace: /etc/x") rfl

/-! ### Claim C10 -/

theorem resolve_error_shape (path root : String) (e : ToolError)
    (h : _resolve path root = .error e) : ∃ m, e = .permissionError m := by
  unfold _resolve at h
  split at h <;> dsimp only at h <;> split at h
  · cases h
  · cases h
    exact ⟨_, rfl⟩
  · cases h
  · cases h
    exact ⟨_, rfl⟩

/-- C10: `read_file` is total over arbitrary file bytes — the
`errors="replace"` decode (`utf8DecodeReplace`, a total function) means an
existing in-workspace file is always rendered, as the `--- path ---` header
followed by each line under its 1-based right-justified line number; the
only error outcomes are path escape and file-not-found, never a decode
failure. -/
theorem read_file_totality :
    ∀ (fs : FSNode) (root path : String) (p : List String) (b : List Nat),
      (_resolve path root = .ok p → getNode fs p = some (.file b) →
        read_file path root fs = .ok ("--- " ++ path ++ " ---\n" ++
          joinSep "\n" ((pySplitlines (utf8DecodeReplace b)).enum.map (fun il =>
            padLeft4 (toString (il.1 + 1)) ++ " | " ++ il.2)))) ∧
      (∀ e, read_file path root fs = .error e →
        (∃ m, e = .permissionError m) ∨ e = .fileNotFound ("File not found: " ++ path)) := by
  intro fs root path p b
  constructor
  · intro h1 h2
    simp [read_file, h1, isFileAt, readBytes, h2, bind, Except.bind, pure, Except.pure]
  · intro e h
    cases hres : _resolve path root with
    | error e2 =>
      left
      simp [read_file, hres, bind, Except.bind] at h
      exact h ▸ resolve_error_shape path root e2 hres
    | ok p2 =>
      by_cases hf : isFileAt fs p2 = true
      · simp [read_file, hres, hf, bind, Except.bind, pure, Except.pure] at h
      · right
        simp only [Bool.not_eq_true] at hf
        simp [read_file, hres, hf, bind, Except.bind, pure, Except.pure] at h
        exact h.symm

/-- Witness for C10: a file whose bytes `[104, 105, 255]` are not valid
UTF-8 is still read, the undecodable byte replaced by U+FFFD. -/
theorem read_file_totality_witness :
    read_file "f.bin" "/ws" fsBin = .ok ("--- f.bin ---\n   1 | hi" ++ String.mk [replChar]) := by
  have h := (read_file_totality fsBin "/ws" "f.bin" ["ws", "f.bin"] [104, 105, 255]).1 rfl rfl
  rw [h]
  rfl

/-! ### Helper lemmas: tree updates (for `edit_file`) -/

theorem getEntry_setEntry_self (k : String) (v : FSNode) :
    ∀ es : List (String × FSNode), getEntry (setEntry es k v) k = some v := by
  intro es
  induction es with
  | nil => simp [setEntry, getEntry, List.find?]
  | cons e rest ih =>
    by_cases h : e.1 = k
    · simp [setEntry, h, getEntry, List.find?]
    · simpa [setEntry, h, getEntry, List.find?] using ih

theorem isFileAt_of_readBytes (fs : FSNode) (p : List String) (bytes : List Nat)
    (h : readBytes fs p = some bytes) : isFileAt fs p = true := by
  unfold readBytes at h
  unfold isFileAt
  cases hg : getNode fs p with
  | none => rw [hg] at h; simp at h
  | some n =>
    cases n with
    | file b => rfl
    | dir d es => rw [hg] at h; simp at h

theorem writeNode_file_ok (c : List Nat) :
    ∀ (p : List String) (fs : FSNode), isFileAt fs p = true →
      ∃ fs2, writeNode fs p c = .ok fs2 ∧ readBytes fs2 p = some c := by
  intro p
  induction p with
  | nil =>
    intro fs h
    cases fs with
    | file b => exact ⟨.file c, rfl, rfl⟩
    | dir d es => simp [isFileAt, getNode] at h
  | cons s ss ih =>
    intro fs h
    cases fs with
    | file b => simp [isFileAt, getNode] at h
    | dir d es =>
      cases hg : getEntry es s with
      | none => simp [isFileAt, getNode, hg] at h
      | some child =>
        have hchild : isFileAt child ss = true := by
          simpa [isFileAt, getNode, hg] using h
        cases ss with
        | nil =>
          cases child with
          | file b2 =>
            refine ⟨.dir d (setEntry es s (.file c)), ?_, ?_⟩
            · simp [writeNode, hg]
            · simp [readBytes, getNode, getEntry_setEntry_self]
          | dir d2 es2 => simp [isFileAt, getNode] at hchild
        | cons s2 ss2 =>
          obtain ⟨c2, hc2, hr2⟩ := ih child hchild
          refine ⟨.dir d (setEntry es s c2), ?_, ?_⟩
          · simp [writeNode, hg, hc2]
          · have hget : getNode (FSNode.dir d (setEntry es s c2)) (s :: s2 :: ss2) =
                getNode c2 (s2 :: ss2) := by
              simp [getNode, getEntry_setEntry_self]
            simpa [readBytes, hget] using hr2

/-! ### Claim C5 -/

/-- C5: `edit_file` fails with `FileNotFoundError` when the resolved target
is not an existing file, fails with the distinct `ValueError` (the spec's
`SubstringNotFoundError`) when `old_string` does not occur literally in the
decoded content, and otherwise replaces exactly the first occurrence (the
least index at which `old_string` is a prefix of the remaining text) and
reports `"1 replacement"`; concretely `"aXbXc"` with `"X" → "Y"` becomes
`"aYbXc"`. -/
theorem edit_file_first_occurrence :
    (∀ old new l r, subFirst old new l = some r →
      ∃ i, old.isPrefixOf (l.drop i) = true ∧
        (∀ j, j < i → old.isPrefixOf (l.drop j) = false) ∧
        r = l.take i ++ new ++ l.drop (i + old.length)) ∧
    (∀ (fs : FSNode) (root path old_string new_string : String) (p : List String),
      _resolve path root = .ok p → isFileAt fs p = false →
      edit_file path old_string new_string root fs =
        .error (.fileNotFound ("File not found: " ++ path))) ∧
    (∀ (fs : FSNode) (root path old_string new_string : String) (p : List String)
        (bytes : List Nat) (text : String),
      _resolve path root = .ok p → readBytes fs p = some bytes →
      utf8DecodeStrict bytes = some text →
      (¬ ∃ q r, text.toList = q ++ old_string.toList ++ r) →
      edit_file path old_string new_string root fs =
        .error (.valueError ("old_string not found in " ++ path))) ∧
    (∀ (fs : FSNode) (root path old_string new_string : String) (p : List String)
        (bytes : List Nat) (text : String) (t2 : List Char),
      _resolve path root = .ok p → readBytes fs p = some bytes →
      utf8DecodeStrict bytes = some text →
      subFirst old_string.toList new_string.toList text.toList = some t2 →
      ∃ fs2, edit_file path old_string new_string root fs =
          .ok ("Edited " ++ path ++ ": 1 replacement", fs2) ∧
        readBytes fs2 p = some (utf8Encode (String.mk t2))) ∧
    (edit_file "f.txt" "X" "Y" "/ws" fsAX = .ok ("Edited f.txt: 1 replacement", fsAY)) := by
  refine ⟨subFirst_some_spec, ?_, ?_, ?_, rfl⟩
  · intro fs root path old_string new_string p h1 h2
    simp [edit_file, h1, h2, bind, Except.bind]
  · intro fs root path old_string new_string p bytes text h1 hb hd hno
    have hfile : isFileAt fs p = true := isFileAt_of_readBytes fs p bytes hb
    have hnone : subFirst old_string.toList new_string.toList text.toList = none := by
      rw [subFirst_none_iff]
      intro i
      cases hx : old_string.toList.isPrefixOf (text.toList.drop i) with
      | false => rfl
      | true => exact absurd ((exists_occurrence_iff _ _).mp ⟨i, hx⟩) hno
    have hnone2 : subFirst old_string.data new_string.data text.data = none := hnone
    simp [edit_file, h1, hfile, hb, hd, bind, Except.bind]
    rw [hnone2]
  · intro fs root path old_string new_string p bytes text t2 h1 hb hd hsub
    have hfile : isFileAt fs p = true := isFileAt_of_readBytes fs p bytes hb
    obtain ⟨fs2, hw, hr⟩ := writeNode_file_ok (utf8Encode (String.mk t2)) p fs hfile
    refine ⟨fs2, ?_, hr⟩
    have hsub2 : subFirst old_string.data new_string.data text.data = some t2 := hsub
    simp [edit_file, h1, hfile, hb, hd, bind, Except.bind]
    rw [hsub2]
    dsimp only
    rw [hw]
    rfl

/-- Witness for C5: a missing file, a missing substring, and the `aXbXc`
first-occurrence edit. -/
theorem edit_file_first_occurrence_witness :
    edit_file "missing.txt" "X" "Y" "/ws" fsAX =
      .error (.fileNotFound "File not found: missing.txt") ∧
    edit_file "f.txt" "zz" "q" "/ws" fsAX =
      .error (.valueError "old_string not found in f.txt") ∧
    edit_file "f.txt" "X" "Y" "/ws" fsAX = .ok ("Edited f.txt: 1 replacement", fsAY) := by
  have h := edit_file_first_occurrence
  refine ⟨h.2.1 fsAX "/ws" "missing.txt" "X" "Y" ["ws", "missing.txt"] rfl rfl, ?_, h.2.2.2.2⟩
  refine h.2.2.1 fsAX "/ws" "f.txt" "zz" "q" ["ws", "f.txt"] (utf8Encode "aXbXc") "aXbXc"
    rfl rfl (by decide) ?_
  intro hex
  have : containsSub "zz".toList "aXbXc".toList = true :=
    (containsSub_iff _ _).mpr hex
  exact absurd this (by decide)

/-! ### Helper lemmas: the sibling sort order of `list_files` -/

theorem charListLe_cons_iff (x y : Char) (xs ys : List Char) :
    charListLe (x :: xs) (y :: ys) = true ↔
      x.toNat < y.toNat ∨ (x = y ∧ charListLe xs ys = true) := by
  show (if charLt x y = true then true
      else if x = y then charListLe xs ys else false) = true ↔ _
  by_cases h1 : charLt x y = true
  · have hlt : x.toNat < y.toNat := by simpa [charLt] using h1
    simp [h1, hlt]
  · have hlt : ¬ x.toNat < y.toNat := by simpa [charLt] using h1
    by_cases h2 : x = y
    · subst h2
      simp [h1, Nat.lt_irrefl]
    · simp [h1, h2, hlt]

theorem charListLe_trans :
    ∀ a b c, charListLe a b = true → charListLe b c = true → charListLe a c = true := by
  intro a
  induction a with
  | nil => intro b c _ _; rfl
  | cons x xs ih =>
    intro b c h1 h2
    cases b with
    | nil => simp [charListLe] at h1
    | cons y ys =>
      cases c with
      | nil => simp [charListLe] at h2
      | cons z zs =>
        rw [charListLe_cons_iff] at h1 h2 ⊢
        rcases h1 with h1 | ⟨rfl, h1⟩
        · rcases h2 with h2 | ⟨rfl, h2⟩
          · exact Or.inl (Nat.lt_trans h1 h2)
          · exact Or.inl h1
        · rcases h2 with h2 | ⟨rfl, h2⟩
          · exact Or.inl h2
          · exact Or.inr ⟨rfl, ih ys zs h1 h2⟩

theorem charListLe_total :
    ∀ a b, charListLe a b = true ∨ charListLe b a = true := by
  intro a
  induction a with
  | nil => intro b; exact Or.inl rfl
  | cons x xs ih =>
    intro b
    cases b with
    | nil => exact Or.inr rfl
    | cons y ys =>
      rcases Nat.lt_trichotomy x.toNat y.toNat with h | h | h
      · exact Or.inl ((charListLe_cons_iff _ _ _ _).mpr (Or.inl h))
      · have hxy : x = y := Char.ext (UInt32.ext h)
        rcases ih ys with h2 | h2
        · exact Or.inl ((charListLe_cons_iff _ _ _ _).mpr (Or.inr ⟨hxy, h2⟩))
        · exact Or.inr ((charListLe_cons_iff _ _ _ _).mpr (Or.inr ⟨hxy.symm, h2⟩))
      · exact Or.inr ((charListLe_cons_iff _ _ _ _).mpr (Or.inl h))

instance : IsTrans (String × FSNode) entryR where
  trans a b c hab hbc := by
    unfold entryR at *
    rcases hab with h | ⟨h1, h2⟩ <;> rcases hbc with h' | ⟨h1', h2'⟩
    · exact Or.inl (Nat.lt_trans h h')
    · exact Or.inl (h1' ▸ h)
    · exact Or.inl (h1 ▸ h')
    · exact Or.inr ⟨h1.trans h1', charListLe_trans _ _ _ h2 h2'⟩

instance : IsTotal (String × FSNode) entryR where
  total a b := by
    unfold entryR
    rcases Nat.lt_trichotomy (entryKindNat a) (entryKindNat b) with h | h | h
    · exact Or.inl (Or.inl h)
    · rcases charListLe_total (strLower a.1).toList (strLower b.1).toList with h2 | h2
      · exact Or.inl (Or.inr ⟨h, h2⟩)
      · exact Or.inr (Or.inr ⟨h.symm, h2⟩)
    · exact Or.inr (Or.inl h)

/-! ### Claim C6 -/

/-- C6 counterexample: the sort key of `list_files` is
`(x.is_file(), x.name.lower())` and `False < True`, so directories sort
before files — not "files first" as claimed.  A directory holding the file
`a.txt` and the subdirectory `b` renders `b/` first. -/
theorem list_files_files_first_counterexample :
    filesThenDirsB (sortEntries [("a.txt", .file []), ("b", .dir false [])]) = false ∧
    list_files "." "/ws" true fsMix = .ok "./\n├── b/\n└── a.txt" :=
  ⟨rfl, rfl⟩

/-- C6 (amended): at every level `list_files` orders siblings with
directories first and then files, alphabetically case-insensitively within
each group — `sortEntries`, the per-level `sorted(...)` call of the source,
always yields a list sorted by that key — and a permission-denied
subdirectory renders the literal `"(permission denied)"` placeholder instead
of raising, both inside a recursive walk and when listed directly. -/
theorem list_files_dirs_first_sorted :
    (∀ es, List.Sorted entryR (sortEntries es)) ∧
    list_files "." "/ws" true fsDenied =
      .ok "./\n├── locked/\n│   (permission denied)\n└── a.txt" ∧
    list_files "locked" "/ws" false fsDenied = .ok "locked/\n(permission denied)" :=
  ⟨fun es => List.sorted_insertionSort entryR es, rfl, rfl⟩

/-! ### Helper lemmas: the fence scanner -/

theorem dropWhile_all_false {α : Type} (p : α → Bool) (l : List α)
    (h : ∀ x ∈ l, p x = false) : l.dropWhile p = l := by
  cases l with
  | nil => rfl
  | cons a as => simp [List.dropWhile_cons, h a (by simp)]

theorem strMk_toList (s : String) : String.mk s.toList = s := rfl

theorem pyStrip_eq_self (s : String) (h : ∀ c ∈ s.toList, isPySpace c = false) :
    pyStrip s = s := by
  unfold pyStrip
  rw [dropWhile_all_false _ _ h,
    dropWhile_all_false _ _ (fun c hc => h c (List.mem_reverse.mp hc)),
    List.reverse_reverse]
  exact strMk_toList s

theorem scanLine_open_fence (st : ScanState) (tag : String)
    (hst : st.in_code = false)
    (htag : ∀ c ∈ tag.toList, isPySpace c = false ∧ c ≠ backtickChar) :
    scanLine st ("```" ++ tag) =
      { st with in_code := true, lang := if tag = "" then "python" else tag } := by
  have hts : ("```" ++ tag).toList =
      backtickChar :: backtickChar :: backtickChar :: tag.toList := by
    rw [toList_append]; rfl
  have hall : ∀ c ∈ ("```" ++ tag).toList, isPySpace c = false := by
    intro c hc
    rw [hts] at hc
    simp only [List.mem_cons] at hc
    rcases hc with rfl | rfl | rfl | hc
    · decide
    · decide
    · decide
    · exact (htag c hc).1
  have hstrip : pyStrip ("```" ++ tag) = "```" ++ tag := pyStrip_eq_self _ hall
  have hfence : strStartsWith (pyStrip ("```" ++ tag)) "```" = true := by
    rw [hstrip]
    unfold strStartsWith
    rw [hts, show "```".toList = [backtickChar, backtickChar, backtickChar] from by decide]
    simp [List.isPrefixOf]
  have hhint : pyStrip (String.mk ((pyStrip ("```" ++ tag)).toList.dropWhile
      (fun c => c = backtickChar))) = tag := by
    rw [hstrip, hts]
    have hdw : (backtickChar :: backtickChar :: backtickChar :: tag.toList).dropWhile
        (fun c => decide (c = backtickChar)) =
          tag.toList.dropWhile (fun c => decide (c = backtickChar)) := by
      simp [List.dropWhile_cons]
    rw [hdw, dropWhile_all_false _ _ (fun c hc => decide_eq_false (htag c hc).2),
      strMk_toList]
    exact pyStrip_eq_self _ (fun c hc => (htag c hc).1)
  have hhint2 : pyStrip ⟨List.dropWhile (fun c => decide (c = backtickChar))
      (pyStrip ("```" ++ tag)).data⟩ = tag := hhint
  simp [scanLine, hfence, hst]
  rw [hhint2]

theorem foldl_scan_outside :
    ∀ (lines : List String) (st : ScanState), st.in_code = false →
      (∀ l ∈ lines, strStartsWith (pyStrip l) "```" = false) →
      lines.foldl scanLine st = st := by
  intro lines
  induction lines with
  | nil => intro st _ _; rfl
  | cons l rest ih =>
    intro st hst hl
    rw [List.foldl_cons, show scanLine st l = st by simp [scanLine, hl l (by simp), hst]]
    exact ih st hst (fun x hx => hl x (by simp [hx]))

theorem foldl_scan_inside :
    ∀ (lines : List String) (st : ScanState), st.in_code = true →
      (∀ l ∈ lines, strStartsWith (pyStrip l) "```" = false) →
      lines.foldl scanLine st = { st with current_code := st.current_code ++ lines } := by
  intro lines
  induction lines with
  | nil => intro st _ _; simp
  | cons l rest ih =>
    intro st hst hl
    rw [List.foldl_cons,
      show scanLine st l = { st with current_code := st.current_code ++ [l] } by
        simp [scanLine, hl l (by simp), hst]]
    rw [ih { st with current_code := st.current_code ++ [l] } hst
      (fun x hx => hl x (by simp [hx]))]
    simp

theorem splitOnChar_no_sep (sep : Char) :
    ∀ l : List Char, sep ∉ l → splitOnChar sep l = [l] := by
  intro l
  induction l with
  | nil => intro _; rfl
  | cons c cs ih =>
    intro h
    have hc : ¬ c = sep := fun hr => h (by simp [hr])
    have hcs : sep ∉ cs := fun hm => h (by simp [hm])
    simp [splitOnChar, hc, ih hcs]

theorem splitOnChar_append_sep (sep : Char) :
    ∀ (xs ys : List Char), sep ∉ xs →
      splitOnChar sep (xs ++ sep :: ys) = xs :: splitOnChar sep ys := by
  intro xs
  induction xs with
  | nil => intro ys _; simp [splitOnChar]
  | cons x xs2 ih =>
    intro ys h
    have hx : ¬ x = sep := fun hr => h (by simp [hr])
    have hxs : sep ∉ xs2 := fun hm => h (by simp [hm])
    show (let r := splitOnChar sep (xs2 ++ sep :: ys);
      if x = sep then [] :: r
      else match r with | [] => [[x]] | h2 :: t => (x :: h2) :: t) =
        (x :: xs2) :: splitOnChar sep ys
    rw [ih ys hxs]
    simp [hx]

theorem splitStr_joinSep :
    ∀ (parts : List String), parts ≠ [] → (∀ p ∈ parts, '\n' ∉ p.toList) →
      splitStr '\n' (joinSep "\n" parts) = parts := by
  intro parts
  induction parts with
  | nil => intro h _; cases h rfl
  | cons l rest ih =>
    intro _ h
    cases rest with
    | nil =>
      show splitStr '\n' (joinSep "\n" [l]) = [l]
      unfold splitStr
      rw [show joinSep "\n" [l] = l from rfl,
        splitOnChar_no_sep '\n' l.toList (h l (by simp))]
      simp [strMk_toList]
    | cons l2 rest2 =>
      have hjoin : (joinSep "\n" (l :: l2 :: rest2)).toList =
          l.toList ++ '\n' :: (joinSep "\n" (l2 :: rest2)).toList := by
        show (l ++ "\n" ++ joinSep "\n" (l2 :: rest2)).toList = _
        rw [toList_append, toList_append]
        simp
      unfold splitStr
      rw [hjoin, splitOnChar_append_sep '\n' l.toList _ (h l (by simp))]
      simp only [List.map_cons]
      rw [strMk_toList]
      congr 1
      have hr := ih (by simp) (fun p hp => h p (by simp [hp]))
      unfold splitStr at hr
      exact hr

/-! ### Claim C7 -/

/-- C7 counterexample: the text `"```python"` ends while inside an open
fence, but with zero accumulated lines; the final `if current_code:` of
`extract_code_blocks` then emits nothing, so no final block is produced —
contradicting the claim's unconditional "still yields a final block". -/
theorem extract_unterminated_empty_counterexample :
    (scanText "```python").in_code = true ∧ extract_code_blocks "```python" = [] :=
  ⟨rfl, rfl⟩

/-- C7 (amended): the `"```python\nx = 1\nprint(x)\n```"` round-trip yields
exactly one `python` block with code `"x = 1\nprint(x)"`; text with no fence
lines yields no blocks; and text ending inside an open fence with **at least
one** accumulated line still yields a final block from those lines, tagged
with the language captured at fence open (default `"python"` when the tag is
empty).  A fence-opening line with nothing after it accumulates no lines and
yields no block. -/
theorem extract_code_blocks_amended :
    (extract_code_blocks "```python\nx = 1\nprint(x)\n```" =
      [⟨"python", "x = 1\nprint(x)"⟩]) ∧
    (∀ text, (∀ l ∈ splitStr '\n' text, strStartsWith (pyStrip l) "```" = false) →
      extract_code_blocks text = []) ∧
    (∀ tag body, body ≠ [] →
      (∀ c ∈ tag.toList, isPySpace c = false ∧ c ≠ backtickChar) →
      (∀ l ∈ body, strStartsWith (pyStrip l) "```" = false ∧ '\n' ∉ l.toList) →
      extract_code_blocks (joinSep "\n" (("```" ++ tag) :: body)) =
        [⟨if tag = "" then "python" else tag, joinSep "\n" body⟩]) := by
  refine ⟨rfl, ?_, ?_⟩
  · intro text h
    unfold extract_code_blocks scanText
    rw [foldl_scan_outside _ initScanState rfl h]
    rfl
  · intro tag body hne htag hbody
    have hnl : '\n' ∉ ("```" ++ tag).toList := by
      rw [toList_append]
      intro hm
      rcases List.mem_append.mp hm with hm | hm
      · revert hm; decide
      · exact absurd (htag _ hm).1 (by decide)
    have hsplit : splitStr '\n' (joinSep "\n" (("```" ++ tag) :: body)) =
        ("```" ++ tag) :: body :=
      splitStr_joinSep _ (by simp) (by
        intro p hp
        rcases List.mem_cons.mp hp with rfl | hp
        · exact hnl
        · exact (hbody p hp).2)
    unfold extract_code_blocks scanText
    rw [hsplit, List.foldl_cons, scanLine_open_fence initScanState tag rfl htag,
      foldl_scan_inside body _ rfl (fun l hl => (hbody l hl).1)]
    simp [List.isEmpty_iff, hne, initScanState]

/-- Witness for C7: fenceless text yields nothing; an unterminated `js`
fence with one accumulated line yields that one block. -/
theorem extract_code_blocks_amended_witness :
    extract_code_blocks "plain text" = [] ∧
    extract_code_blocks (joinSep "\n" (("```" ++ "js") :: ["const a = 1;"])) =
      [⟨"js", "const a = 1;"⟩] := by
  have h := extract_code_blocks_amended
  refine ⟨h.2.1 "plain text" (by decide), ?_⟩
  have h3 := h.2.2 "js" ["const a = 1;"] (by simp) (by decide) (by decide)
  simpa [joinSep] using h3

/-! ### Helper lemmas: the tool-use loop -/

theorem getLast?_cons_getD {α : Type} :
    ∀ (l : List α) (a d : α), (a :: l).getLast?.getD d = l.getLast?.getD a := by
  intro l
  induction l with
  | nil => intro a d; rfl
  | cons x xs ih =>
    intro a d
    rw [List.getLast?_cons_cons]
    rw [ih x d, ih x a]

theorem processBlocks_text (os : Oracles) (root : String) :
    ∀ (blocks : List ContentBlock) (text : String) (fs : FSNode) (files : List String),
      (processBlocks os root blocks text fs files).1 =
        ((blocks.filterMap textOfBlock).getLast?).getD text := by
  intro blocks
  induction blocks with
  | nil => intro text fs files; rfl
  | cons b rest ih =>
    intro text fs files
    cases b with
    | text s =>
      show (processBlocks os root rest s fs files).1 = _
      rw [ih s fs files]
      simp only [List.filterMap_cons, textOfBlock]
      rw [getLast?_cons_getD]
    | toolUse id nm input =>
      show (processBlocks os root rest text _ _).1 = _
      rw [ih]
      simp only [List.filterMap_cons, textOfBlock]

theorem processBlocks_results_isEmpty (os : Oracles) (root : String) :
    ∀ (blocks : List ContentBlock) (text : String) (fs : FSNode) (files : List String),
      (processBlocks os root blocks text fs files).2.2.1.isEmpty =
        !(blocks.any isToolUseB) := by
  intro blocks
  induction blocks with
  | nil => intro text fs files; rfl
  | cons b rest ih =>
    intro text fs files
    cases b with
    | text s =>
      show (processBlocks os root rest s fs files).2.2.1.isEmpty = _
      rw [ih]
      simp [isToolUseB]
    | toolUse id nm input =>
      simp [processBlocks, isToolUseB]

theorem runLoop_turns_le (model : List PyMessage → ModelResp) (os : Oracles) (root : String) :
    ∀ (fuel : Nat) (st : LoopState),
      (runLoop model os root fuel st).turns ≤ st.turns + fuel := by
  intro fuel
  induction fuel with
  | zero => intro st; simp [runLoop]
  | succ f ih =>
    intro st
    rw [runLoop]
    dsimp only
    split
    · dsimp only
      omega
    · refine le_trans (ih _) ?_
      dsimp only
      omega

theorem runLoop_turns_always (model : List PyMessage → ModelResp) (os : Oracles)
    (root : String) (h : ∀ msgs, (model msgs).content.any isToolUseB = true) :
    ∀ (fuel : Nat) (st : LoopState),
      (runLoop model os root fuel st).turns = st.turns + fuel := by
  intro fuel
  induction fuel with
  | zero => intro st; simp [runLoop]
  | succ f ih =>
    intro st
    have hcond : (processBlocks os root (model st.messages).content st.text st.fs
        st.files_changed).2.2.1.isEmpty = false := by
      rw [processBlocks_results_isEmpty, h st.messages]
      rfl
    rw [runLoop]
    dsimp only
    rw [hcond]
    simp only [Bool.false_eq_true, if_false]
    rw [ih]
    dsimp only
    omega

theorem filterMap_textOf_empty (blocks : List ContentBlock)
    (h : blocks.any isTextB = false) : blocks.filterMap textOfBlock = [] := by
  induction blocks with
  | nil => rfl
  | cons b rest ih =>
    cases b with
    | text s => simp [isTextB] at h
    | toolUse id nm input =>
      simp only [List.any_cons, isTextB, Bool.false_or] at h
      simp [List.filterMap_cons, textOfBlock, ih h]

theorem runLoop_text_no_text (model : List PyMessage → ModelResp) (os : Oracles)
    (root : String) (h : ∀ msgs, (model msgs).content.any isTextB = false) :
    ∀ (fuel : Nat) (st : LoopState), (runLoop model os root fuel st).text = st.text := by
  intro fuel
  induction fuel with
  | zero => intro st; rfl
  | succ f ih =>
    intro st
    have htext : (processBlocks os root (model st.messages).content st.text st.fs
        st.files_changed).1 = st.text := by
      rw [processBlocks_text, filterMap_textOf_empty _ (h st.messages)]
      rfl
    rw [runLoop]
    dsimp only
    split
    · exact htext
    · rw [ih]
      exact htext

/-! ### Claim C2 -/

/-- C2: the tool-use loop performs at most 20 Compose→Dispatch cycles
(`turns` counts model calls); a model that requests a tool call on every
turn drives exactly 20 cycles, after which the loop returns normally
(`runLoop` is a total function — reaching the ceiling is not an error) with
whatever text was last produced: within one response the running text is the
last text block (or the previous text when the response has none), and a
model that never produces text leaves the final text empty. -/
theorem loop_turn_ceiling :
    ∀ (model : List PyMessage → ModelResp) (os : Oracles) (root : String) (fs : FSNode)
      (history : List (String × String)) (message : String),
      (claudeRun model os root fs history message).turns ≤ 20 ∧
      ((∀ msgs, (model msgs).content.any isToolUseB = true) →
        (claudeRun model os root fs history message).turns = 20 ∧
        ((∀ msgs, (model msgs).content.any isTextB = false) →
          (claudeResponse model os root fs history message).text = "")) ∧
      (∀ (blocks : List ContentBlock) (text : String) (fs2 : FSNode) (files : List String),
        (processBlocks os root blocks text fs2 files).1 =
          ((blocks.filterMap textOfBlock).getLast?).getD text) := by
  intro model os root fs history message
  refine ⟨?_, ?_, processBlocks_text os root⟩
  · have h := runLoop_turns_le model os root max_turns
      ⟨initMessages history message, "", fs, [], 0⟩
    simpa [claudeRun, max_turns] using h
  · intro htools
    constructor
    · have h := runLoop_turns_always model os root htools max_turns
        ⟨initMessages history message, "", fs, [], 0⟩
      simpa [claudeRun, max_turns] using h
    · intro htext
      have h := runLoop_text_no_text model os root htext max_turns
        ⟨initMessages history message, "", fs, [], 0⟩
      simpa [claudeResponse, claudeRun, max_turns] using h

/-- Witness for C2: a model that always asks for one (unknown) tool and
emits no text runs exactly 20 cycles and returns empty text. -/
theorem loop_turn_ceiling_witness :
    (claudeRun modelAlwaysTool osNull "/ws" fsHello [] "go").turns = 20 ∧
    (claudeResponse modelAlwaysTool osNull "/ws" fsHello [] "go").text = "" := by
  have h := (loop_turn_ceiling modelAlwaysTool osNull "/ws" fsHello [] "go").2.1
    (fun _ => rfl)
  exact ⟨h.1, h.2 (fun _ => rfl)⟩

/-! ### Helper lemmas: grep early stop -/

theorem grepLines_take (test : String → Bool) (maxM : Nat) (rel : String) :
    ∀ (numbered : List (Nat × String)) (acc : List String), acc.length < maxM →
      grepLines test maxM rel numbered acc =
        (acc ++ (grepMatchLines test rel numbered).take (maxM - acc.length),
         decide (maxM ≤ acc.length + (grepMatchLines test rel numbered).length)) := by
  intro numbered
  induction numbered with
  | nil =>
    intro acc hacc
    unfold grepLines grepMatchLines
    simp only [List.filterMap_nil, List.take_nil, List.append_nil, List.length_nil,
      Nat.add_zero]
    rw [decide_eq_false (by omega : ¬ maxM ≤ acc.length)]
  | cons il rest ih =>
    intro acc hacc
    obtain ⟨i, line⟩ := il
    by_cases ht : test line = true
    · have hfmt : grepMatchLines test rel ((i, line) :: rest) =
          (rel ++ ":" ++ toString i ++ ": " ++ pyStrip line) :: grepMatchLines test rel rest := by
        simp [grepMatchLines, ht]
      have hlhs : grepLines test maxM rel ((i, line) :: rest) acc =
          (if maxM ≤ (acc ++ [rel ++ ":" ++ toString i ++ ": " ++ pyStrip line]).length
           then (acc ++ [rel ++ ":" ++ toString i ++ ": " ++ pyStrip line], true)
           else grepLines test maxM rel rest
             (acc ++ [rel ++ ":" ++ toString i ++ ": " ++ pyStrip line])) := by
        simp [grepLines, ht]
      rw [hlhs, hfmt]
      by_cases hm : maxM ≤ acc.length + 1
      · rw [if_pos (by simpa using hm)]
        have h1 : maxM - acc.length = 1 := by omega
        rw [h1]
        simp only [Prod.mk.injEq, List.length_cons]
        constructor
        · rw [show (1 : Nat) = 0 + 1 from rfl, List.take_succ_cons, List.take_zero]
        · rw [decide_eq_true (by omega :
            maxM ≤ acc.length + ((grepMatchLines test rel rest).length + 1))]
      · rw [if_neg (by simpa using hm)]
        have hlt : (acc ++ [rel ++ ":" ++ toString i ++ ": " ++ pyStrip line]).length < maxM := by
          simp
          omega
        rw [ih _ hlt]
        simp only [Prod.mk.injEq, List.length_append, List.length_cons, List.length_nil,
          Nat.zero_add, List.length_singleton]
        have hk : maxM - acc.length = (maxM - (acc.length + 1)) + 1 := by omega
        constructor
        · rw [hk, List.take_succ_cons]
          simp [List.append_assoc]
        · exact decide_eq_decide.mpr (by omega)
    · have hb : test line = false := by simpa using ht
      have hfmt : grepMatchLines test rel ((i, line) :: rest) =
          grepMatchLines test rel rest := by
        simp [grepMatchLines, hb]
      rw [show grepLines test maxM rel ((i, line) :: rest) acc =
          grepLines test maxM rel rest acc from by simp [grepLines, hb]]
      rw [ih acc hacc, hfmt]

theorem grepGo_take (fs : FSNode) (rootR : List String) (test : String → Bool) (maxM : Nat) :
    ∀ (files : List (List String)) (acc : List String), acc.length < maxM →
      (grepGo fs rootR test maxM files acc).1 =
        acc ++ (grepAllMatches fs rootR test files).take (maxM - acc.length) := by
  intro files
  induction files with
  | nil => intro acc hacc; simp [grepGo, grepAllMatches]
  | cons m rest ih =>
    intro acc hacc
    by_cases hf : isFileAt fs (rootR ++ m) = false
    · rw [show grepGo fs rootR test maxM (m :: rest) acc =
          grepGo fs rootR test maxM rest acc from by simp [grepGo, hf]]
      rw [ih acc hacc]
      simp [grepAllMatches, hf]
    · have hf2 : isFileAt fs (rootR ++ m) = true := by simpa using hf
      have hall : grepAllMatches fs rootR test (m :: rest) =
          grepMatchLines test (joinSep "/" m)
            ((pySplitlines (utf8DecodeReplace ((readBytes fs (rootR ++ m)).getD []))).enum.map
              (fun il => (il.1 + 1, il.2))) ++ grepAllMatches fs rootR test rest := by
        simp [grepAllMatches, hf2]
      have hlines := grepLines_take test maxM (joinSep "/" m)
        ((pySplitlines (utf8DecodeReplace ((readBytes fs (rootR ++ m)).getD []))).enum.map
          (fun il => (il.1 + 1, il.2))) acc hacc
      have hgo : grepGo fs rootR test maxM (m :: rest) acc =
          (if (grepLines test maxM (joinSep "/" m)
              ((pySplitlines (utf8DecodeReplace ((readBytes fs (rootR ++ m)).getD []))).enum.map
                (fun il => (il.1 + 1, il.2))) acc).2 = true
           then grepLines test maxM (joinSep "/" m)
              ((pySplitlines (utf8DecodeReplace ((readBytes fs (rootR ++ m)).getD []))).enum.map
                (fun il => (il.1 + 1, il.2))) acc
           else grepGo fs rootR test maxM rest
             (grepLines test maxM (joinSep "/" m)
               ((pySplitlines (utf8DecodeReplace ((readBytes fs (rootR ++ m)).getD []))).enum.map
                 (fun il => (il.1 + 1, il.2))) acc).1) := by
        simp [grepGo, hf2]
      rw [hgo, hlines, hall]
      by_cases hflag : maxM ≤ acc.length + (grepMatchLines test (joinSep "/" m)
          ((pySplitlines (utf8DecodeReplace ((readBytes fs (rootR ++ m)).getD []))).enum.map
            (fun il => (il.1 + 1, il.2)))).length
      · rw [if_pos (by simp [decide_eq_true hflag])]
        rw [List.take_append_of_le_length (by omega)]
      · rw [if_neg (by simp [decide_eq_false hflag])]
        have htk : (grepMatchLines test (joinSep "/" m)
            ((pySplitlines (utf8DecodeReplace ((readBytes fs (rootR ++ m)).getD []))).enum.map
              (fun il => (il.1 + 1, il.2)))).take (maxM - acc.length) =
            grepMatchLines test (joinSep "/" m)
              ((pySplitlines (utf8DecodeReplace ((readBytes fs (rootR ++ m)).getD []))).enum.map
                (fun il => (il.1 + 1, il.2))) :=
          List.take_of_length_le (by omega)
        rw [htk]
        have hlt2 : (acc ++ grepMatchLines test (joinSep "/" m)
            ((pySplitlines (utf8DecodeReplace ((readBytes fs (rootR ++ m)).getD []))).enum.map
              (fun il => (il.1 + 1, il.2)))).length < maxM := by
          simp only [List.length_append]
          omega
        rw [ih _ hlt2]
        rw [List.take_append_eq_append_take]
        have htk2 : (grepMatchLines test (joinSep "/" m)
            ((pySplitlines (utf8DecodeReplace ((readBytes fs (rootR ++ m)).getD []))).enum.map
              (fun il => (il.1 + 1, il.2)))).take (maxM - acc.length) =
            grepMatchLines test (joinSep "/" m)
              ((pySplitlines (utf8DecodeReplace ((readBytes fs (rootR ++ m)).getD []))).enum.map
                (fun il => (il.1 + 1, il.2))) :=
          List.take_of_length_le (by omega)
        rw [htk2]
        have harr : maxM - (acc ++ grepMatchLines test (joinSep "/" m)
            ((pySplitlines (utf8DecodeReplace ((readBytes fs (rootR ++ m)).getD []))).enum.map
              (fun il => (il.1 + 1, il.2)))).length =
            maxM - acc.length - (grepMatchLines test (joinSep "/" m)
              ((pySplitlines (utf8DecodeReplace ((readBytes fs (rootR ++ m)).getD []))).enum.map
                (fun il => (il.1 + 1, il.2)))).length := by
          simp only [List.length_append]
          omega
        rw [harr, List.append_assoc]

/-! ### Claim C8 -/

/-- C8: `grep_files` fails with the spec's `InvalidPatternError` (a
`ValueError`) when the pattern does not compile; with a valid pattern and a
positive `max_matches` it returns exactly the first `max_matches` of the
reference match list — every `"path:line_number: trimmed_line"` over the
glob-matched files in sorted order, with no early stop — so collection stops
as soon as `max_matches` results exist, even mid-file; and the `"hello"`
search over a file containing `"hello\nworld"` yields exactly
`"f.txt:1: hello"`. -/
theorem grep_files_spec :
    ∀ (reCompile : String → Option (String → Bool)) (fnmatch : String → List String → Bool)
      (fs : FSNode) (root pattern glob_pattern : String) (max_matches : Nat),
      (reCompile pattern = none →
        grep_files reCompile fnmatch pattern root glob_pattern max_matches fs =
          .error (.valueError ("Invalid regex: " ++ pattern))) ∧
      (∀ test, reCompile pattern = some test → 0 < max_matches →
        grep_files reCompile fnmatch pattern root glob_pattern max_matches fs =
          .ok (if ((grepAllMatches fs (rootSegs root) test
                  (sortedGlobPaths fnmatch glob_pattern root fs)).take max_matches).isEmpty
               then "(no matches)"
               else joinSep "\n" ((grepAllMatches fs (rootSegs root) test
                  (sortedGlobPaths fnmatch glob_pattern root fs)).take max_matches))) ∧
      grep_files reHello globAll "hello" "/ws" "**/*" 100 fsHello = .ok "f.txt:1: hello" := by
  intro reCompile fnmatch fs root pattern glob_pattern max_matches
  refine ⟨?_, ?_, rfl⟩
  · intro h
    simp [grep_files, h]
  · intro test h hpos
    have hgo := grepGo_take fs (rootSegs root) test max_matches
      (sortedGlobPaths fnmatch glob_pattern root fs) [] (by simpa using hpos)
    simp only [List.nil_append, Nat.sub_zero, List.length_nil] at hgo
    simp only [grep_files, h]
    rw [hgo]

/-- Witness for C8: a non-compiling pattern, and the concrete `"hello"`
search through the take-`max_matches` clause. -/
theorem grep_files_spec_witness :
    grep_files reNone globAll "(" "/ws" "**/*" 100 fsHello =
      .error (.valueError "Invalid regex: (") ∧
    grep_files reHello globAll "hello" "/ws" "**/*" 100 fsHello = .ok "f.txt:1: hello" := by
  refine ⟨(grep_files_spec reNone globAll fsHello "/ws" "(" "**/*" 100).1 rfl, ?_⟩
  have h := (grep_files_spec reHello globAll fsHello "/ws" "hello" "**/*" 100).2.1
    (fun l => strContains l "hello") rfl (by omega)
  rw [h]
  rfl

/-! ### Sanity checks: the embedding against the repository's own tests -/

/-- `test_path_escape_forbidden`: plain `..` traversal and absolute input
are rejected by `_resolve`. -/
theorem sanity_path_escape_forbidden :
    _resolve "../../../etc/passwd" "/ws" =
      .error (.permissionError "Path escapes workspace: ../../../etc/passwd") ∧
    _resolve "/etc/passwd" "/ws" =
      .error (.permissionError "Path escapes workspace: /etc/passwd") :=
  ⟨rfl, rfl⟩

/-- `test_write_read` and `test_read_nonexistent`: confirmation text, the
numbered render, and the missing-file error. -/
theorem sanity_write_read :
    (write_file "new.txt" "content" "/ws" fsMix).map (fun r => r.1) =
      .ok "Wrote new.txt (7 bytes)" ∧
    read_file "f.txt" "/ws" fsHello = .ok "--- f.txt ---\n   1 | hello\n   2 | world" ∧
    read_file "nonexistent.txt" "/ws" fsHello =
      .error (.fileNotFound "File not found: nonexistent.txt") :=
  ⟨rfl, rfl, rfl⟩

/-- `test_extract_code_blocks_multiple`, `_default_lang` and `_unclosed`. -/
theorem sanity_extract_blocks :
    extract_code_blocks "```js\nconst a = 1;\n```\n```python\ndef f(): pass\n```" =
      [⟨"js", "const a = 1;"⟩, ⟨"python", "def f(): pass"⟩] ∧
    extract_code_blocks "```\nplain\n```" = [⟨"python", "plain"⟩] ∧
    extract_code_blocks "```py\nx = 1\n" = [⟨"py", "x = 1\n"⟩] :=
  ⟨rfl, rfl, rfl⟩

/-- `test_execute_python_no_output`: the no-output sentinel. -/
theorem sanity_sandbox_no_output :
    execute_python_code execZeroDiv "x = 1" = "Code executed successfully (no output)." :=
  rfl

/-- Codec sanity: the strict decoder rejects what the replacing decoder
repairs, and inverts the encoder on the fixture text. -/
theorem sanity_decoders :
    utf8DecodeReplace [104, 105, 255] = "hi" ++ String.mk [replChar] ∧
    utf8DecodeStrict [104, 255] = none ∧
    utf8DecodeStrict (utf8Encode "aXbXc") = some "aXbXc" :=
  ⟨rfl, rfl, rfl⟩
